import Mathlib

set_option maxRecDepth 4000

/-!
Shallow embedding of `src/rerouter/router.py`.

Sentences are modelled after tokenization: `RegExRoute.match` receives the
ordered list of tokens that the external shlex tokenizer produced (spec §4.2
states the sequence matcher's input is the already-tokenized sentence).
Compiled `re` pattern objects are modelled by their matching semantics: a
function from an input token to `Option MatchInfo`, where `MatchInfo` carries
the ordered capture groups (optional group name, optional captured value; the
value is `none` when the group did not participate in the match, which Python
reports as `m.group(i) is None`).  Python's case-insensitive flag `re.I` is
modelled for the ASCII range.
-/

/-- ASCII model of Python's `re.I` single-character comparison: equal, or an
upper/lower case pair (code points 65..90 pair with +32). -/
def charIEq (a b : Char) : Bool :=
  a == b ||
    (65 ≤ a.toNat && a.toNat ≤ 90 && b.toNat == a.toNat + 32) ||
    (65 ≤ b.toNat && b.toNat ≤ 90 && a.toNat == b.toNat + 32)

/-- Case-insensitive equality of two character lists. -/
def ciEq : List Char → List Char → Bool
  | [], [] => true
  | a :: la, b :: lb => charIEq a b && ciEq la lb
  | _, _ => false

/-- A regex atom occurring in a compiled literal grammar token: a literal
character or `.` (any character except newline). -/
inductive RAtom
  | rchar (c : Char)
  | rdot
  deriving DecidableEq

/-- A piece of a compiled literal token: one atom, or an atom under `+`
(one or more repetitions), exactly the two regex operators that the
unescaped interpolation in `from_meta_pattern` can produce from `[\w.+-]+`. -/
inductive RPiece
  | once (a : RAtom)
  | more (a : RAtom)
  deriving DecidableEq

/-- Parse the characters of a literal grammar token as Python `re` does when
the token is interpolated unescaped into `^({rule})$`: word characters and
`-` are literals, `.` is the any-char atom, `+` turns the previous piece into
a one-or-more repetition and is an error (`re.error: nothing to repeat`) when
there is no previous once-piece. -/
def parsePiecesAux : List RPiece → List Char → Option (List RPiece)
  | acc, [] => some acc.reverse
  | acc, c :: cs =>
    if c == '+' then
      match acc with
      | .once a :: rest => parsePiecesAux (.more a :: rest) cs
      | _ => none
    else if c == '.' then parsePiecesAux (.once .rdot :: acc) cs
    else parsePiecesAux (.once (.rchar c) :: acc) cs

def parsePieces (l : List Char) : Option (List RPiece) := parsePiecesAux [] l

/-- Does an atom match one input character (with `re.I` semantics)? -/
def atomMatch : RAtom → Char → Bool
  | .rchar d, c => charIEq d c
  | .rdot, c => c != '\n'

/-- Full (anchored) match of a piece list against a character list, with
fuel; the fuel always exceeds the number of remaining characters, so the
zero-fuel branch is unreachable from `piecesMatch`. -/
def pmF : Nat → List RPiece → List Char → Bool
  | _, [], [] => true
  | _, [], _ :: _ => false
  | _, .once _ :: _, [] => false
  | _, .more _ :: _, [] => false
  | 0, _ :: _, _ :: _ => false
  | n + 1, .once a :: ps, c :: cs => atomMatch a c && pmF n ps cs
  | n + 1, .more a :: ps, c :: cs =>
    atomMatch a c && (pmF n ps cs || pmF n (.more a :: ps) cs)

/-- Anchored match `^pieces$` against a token's characters. -/
def piecesMatch (ps : List RPiece) (l : List Char) : Bool := pmF (l.length + 1) ps l

/-- One capture group of a Python match object: optional name, and the
captured text (`none` when the group did not participate). -/
structure GroupInfo where
  gname : Option String
  gval : Option String
  deriving DecidableEq

/-- The data of a Python `re.Match` object that the router reads: the ordered
capture groups.  The distinguished zero-width match `em = re.match("", "")`
is modelled separately (constructor `Cell.zw` below) because the code
compares cells against `em` by object identity. -/
structure MatchInfo where
  groups : List GroupInfo
  deriving DecidableEq

/-- The structure of a regex built by `RegExRoutePattern.from_meta_pattern`:
literal (`^(rule)$`), anonymous filter (`^(a|b|c)$`), named argument
(`^(?P<key>[^:]+)$`), named argument with filter (`^(?P<key>a|b|c)$`), or
the colon-pair splice `^(L):(R)$` obtained by the pattern-string surgery
`lp.pattern[:-1] + ":" + rp.pattern[1:]`. -/
inductive TokPat
  | lit (ps : List RPiece)
  | anon (alts : List (List Char))
  | narg (key : String)
  | nfilter (key : String) (alts : List (List Char))
  | pair (left right : TokPat)
  deriving DecidableEq

/-- All decompositions `l = pre ++ ':' :: post`, leftmost colon first. -/
def colonSplits : List Char → List (List Char × List Char)
  | [] => []
  | c :: cs =>
    let rest := (colonSplits cs).map (fun p => (c :: p.1, p.2))
    if c == ':' then ([], cs) :: rest else rest

/-- Search the candidate colon splits for a pair regex `^(L):(R)$`: both
sides must match their part; groups are the left group(s) then the right
group(s). -/
def pairSearchFn (f g : String → Option MatchInfo) :
    List (List Char × List Char) → Option MatchInfo
  | [] => none
  | (u, v) :: rest =>
    match f (String.mk u), g (String.mk v) with
    | some m1, some m2 => some ⟨m1.groups ++ m2.groups⟩
    | _, _ => pairSearchFn f g rest

/-- Matching semantics of a compiled grammar-token regex against one input
token (anchored, `re.I`).  For `pair`, the splits are tried rightmost first,
matching the greedy backtracking order of the Python engine (only literal
sub-patterns containing `.`/`+` can make more than one split viable; the
grammar forms `[^:]+` and word-character alternations never contain `:`). -/
def tokPatMatch : TokPat → String → Option MatchInfo
  | .lit ps, t => if piecesMatch ps t.data then some ⟨[⟨none, some t⟩]⟩ else none
  | .anon alts, t =>
    if alts.any (fun a => ciEq a t.data) then some ⟨[⟨none, some t⟩]⟩ else none
  | .narg k, t =>
    if !t.data.isEmpty && t.data.all (fun c => c != ':') then
      some ⟨[⟨some k, some t⟩]⟩
    else none
  | .nfilter k alts, t =>
    if alts.any (fun a => ciEq a t.data) then some ⟨[⟨some k, some t⟩]⟩ else none
  | .pair a b, t => pairSearchFn (tokPatMatch a) (tokPatMatch b) (colonSplits t.data).reverse

/-- Number of capture groups of a compiled grammar-token regex. -/
def numGroups : TokPat → Nat
  | .pair a b => numGroups a + numGroups b
  | _ => 1

/-- The named capture groups a compiled grammar-token regex declares
(`(?P<key>...)` comes only from the named-argument forms). -/
def groupNames : TokPat → List String
  | .narg k => [k]
  | .nfilter k _ => [k]
  | .pair a b => groupNames a ++ groupNames b
  | _ => []

/-- ASCII model of Python's `\w`. -/
def isWordChar (c : Char) : Bool := c.isAlphanum || c == '_'

/-- Characters admitted by `META_PAT_LITERAL = ^[\w.+-]+$`. -/
def isLitChar (c : Char) : Bool := isWordChar c || c == '.' || c == '+' || c == '-'

/-- Characters admitted inside a filter: `[\w|]`. -/
def isFilterChar (c : Char) : Bool := isWordChar c || c == '|'

/-- `META_PAT_LITERAL.match rule`: `^[\w.+-]+$`. -/
def formLit (l : List Char) : Bool := !l.isEmpty && l.all isLitChar

/-- `META_PAT_FILTER_ANON.match rule`: `^\([\w|]+\)$`. -/
def formAnon (l : List Char) : Bool :=
  match l with
  | '(' :: rest =>
    match rest.getLast? with
    | some ')' => !rest.dropLast.isEmpty && rest.dropLast.all isFilterChar
    | _ => false
  | _ => false

/-- `META_PAT_NAMED_ARG.match rule`: `^<(\w+)>$`. -/
def formNargB (l : List Char) : Bool :=
  match l with
  | '<' :: rest =>
    match rest.getLast? with
    | some '>' => !rest.dropLast.isEmpty && rest.dropLast.all isWordChar
    | _ => false
  | _ => false

/-- Drop the first and last character (extract the bracketed content). -/
def stripEnds (l : List Char) : List Char :=
  match l with
  | _ :: rest => rest.dropLast
  | [] => []

/-- Split a character list on `|` (Python `str.split('|')` shape: empty
parts are kept). -/
def splitBar : List Char → List (List Char)
  | [] => [[]]
  | c :: cs =>
    if c == '|' then [] :: splitBar cs
    else
      match splitBar cs with
      | [] => [[c]]
      | p :: ps => (c :: p) :: ps

/-- Split a character list on `:` (Python `str.split(':')`: all occurrences,
empty parts kept). -/
def splitColon : List Char → List (List Char)
  | [] => [[]]
  | c :: cs =>
    if c == ':' then [] :: splitColon cs
    else
      match splitColon cs with
      | [] => [[c]]
      | p :: ps => (c :: p) :: ps

/-- `META_PAT_NAMED_ARG_FILTER.match rule`: `^<(\w+)\(([\w|]+)\)>$`, returning
the key and the filter alternatives on success. -/
def parseNfilter (l : List Char) : Option (String × List (List Char)) :=
  match l with
  | '<' :: rest =>
    match rest.getLast? with
    | some '>' =>
      let mid := rest.dropLast
      match mid.dropWhile isWordChar with
      | '(' :: rem =>
        match rem.getLast? with
        | some ')' =>
          if !(mid.takeWhile isWordChar).isEmpty && !rem.dropLast.isEmpty &&
              rem.dropLast.all isFilterChar then
            some (String.mk (mid.takeWhile isWordChar), splitBar rem.dropLast)
          else none
        | _ => none
      | _ => none
    | _ => none
  | _ => none

/-- `META_PAT_OPTIONAL_OPT.match rule`: `^\[([^\[\] ]+)]([*+]?)$`, returning
the inner rule and the quantifier suffix (`""`, `"*"` or `"+"`). -/
def parseOpt (l : List Char) : Option (List Char × String) :=
  match l with
  | [] => none
  | c :: rest =>
    if c == '[' then
      if (rest.takeWhile (fun d => d != ']')).isEmpty ||
          !(rest.takeWhile (fun d => d != ']')).all (fun d => d != '[' && d != ' ') then
        none
      else
        match rest.dropWhile (fun d => d != ']') with
        | [] => none
        | d :: suffix =>
          if d == ']' then
            if suffix == [] then some (rest.takeWhile (fun d => d != ']'), "")
            else if suffix == ['*'] then some (rest.takeWhile (fun d => d != ']'), "*")
            else if suffix == ['+'] then some (rest.takeWhile (fun d => d != ']'), "+")
            else none
          else none
    else none

/-- The compiler's output, mirroring `RegExRoutePattern`: the compiled
single-token regex and the quantifier extension (`None`, `"?"`, `"*"`,
`"+"`; `routex` can also supply other strings such as `""`). -/
structure CompiledPattern where
  pat : TokPat
  ext : Option String
  deriving DecidableEq

/-- Python truthiness of the `ext` field (`if p_sub.ext:`): `None` and the
empty string are falsy. -/
def extTruthy : Option String → Bool
  | none => false
  | some s => !(s == "")

/-- Fuelled embedding of `RegExRoutePattern.from_meta_pattern`; with fuel
greater than the rule length the zero-fuel branch is unreachable, see
`compileTok`.  Checks run in the source's priority order: literal, anonymous
filter, named argument, named argument with filter, optional wrapper, and
finally the colon split. -/
def goF : Nat → List Char → Except String CompiledPattern
  | 0, _ => .error "out of fuel"
  | n + 1, l =>
    if formLit l then
      match parsePieces l with
      | some ps => .ok ⟨.lit ps, none⟩
      | none => .error ("re.error: nothing to repeat: " ++ String.mk l)
    else if formAnon l then .ok ⟨.anon (splitBar (stripEnds l)), none⟩
    else if formNargB l then .ok ⟨.narg (String.mk (stripEnds l)), none⟩
    else
      match parseNfilter l with
      | some (k, alts) => .ok ⟨.nfilter k alts, none⟩
      | none =>
        match parseOpt l with
        | some (inner, ext) =>
          match goF n inner with
          | .error e => .error e
          | .ok sub =>
            if extTruthy sub.ext then
              .error ("illegal routing syntax, " ++ String.mk l ++ ": '" ++
                sub.ext.getD "" ++ "' is not allowed inside an optional option")
            else .ok ⟨sub.pat, some (if ext == "" then "?" else ext)⟩
        | none =>
          match splitColon l with
          | [a, b] =>
            match goF n a with
            | .error e => .error e
            | .ok lp =>
              match goF n b with
              | .error e => .error e
              | .ok rp =>
                if extTruthy lp.ext || extTruthy rp.ext then
                  .error ("illegal routing syntax: " ++ String.mk l ++
                    ": nested options are not allowed")
                else if (groupNames lp.pat).any
                    (fun k => (groupNames rp.pat).contains k) then
                  .error ("re.error: redefinition of group name: " ++ String.mk l)
                else .ok ⟨.pair lp.pat rp.pat, none⟩
          | _ => .error ("illegal routing syntax: " ++ String.mk l)

/-- `RegExRoutePattern.from_meta_pattern` on a grammar token.  In the
colon-pair branch the source splices the two compiled pattern strings and
recompiles them (`lp.pat.pattern[:-1] + ":" + rp.pat.pattern[1:]`); that
`re.compile` raises a `re.error` when the two sides declare the same group
name (e.g. the grammar token `<x>:<x>`), which the branch above models. -/
def compileTok (rule : String) : Except String CompiledPattern :=
  goF (rule.data.length + 1) rule.data

instance {e a : Type} [DecidableEq e] [DecidableEq a] : DecidableEq (Except e a) := fun x y =>
  match x, y with
  | .ok u, .ok v =>
    match decEq u v with
    | isTrue h => isTrue (h ▸ rfl)
    | isFalse h => isFalse (fun he => h (Except.ok.inj he))
  | .error u, .error v =>
    match decEq u v with
    | isTrue h => isTrue (h ▸ rfl)
    | isFalse h => isFalse (fun he => h (Except.error.inj he))
  | .ok _, .error _ => isFalse (fun he => Except.noConfusion he)
  | .error _, .ok _ => isFalse (fun he => Except.noConfusion he)

/-- A cell of the DP table (and an entry of the `matches` array): `None`,
the zero-width marker `em`, or a concrete match.  Python compares match
objects by identity and `em` is a single distinguished object, so the
identity tests `== em` / `!= em` become constructor tests here. -/
inductive Cell
  | zw
  | conc (m : MatchInfo)
  deriving DecidableEq

/-- A route pattern as `RegExRoute.match` consumes it: the compiled regex's
matching function (possibly a raw `routex` regex) and the quantifier. -/
structure RegExRoutePattern where
  pat : String → Option MatchInfo
  ext : Option String

/-- View a DSL-compiled pattern as a route pattern. -/
def toRoutePattern (c : CompiledPattern) : RegExRoutePattern := ⟨tokPatMatch c.pat, c.ext⟩

structure RegExRoute where
  target : Nat
  grammar : String
  patterns : List RegExRoutePattern

/-- `RegExRouteMatch`: outcome flag, per-token slots, grammar and target. -/
structure RegExRouteMatch where
  conclusion : Bool
  matchList : List (Option Cell)
  grammar : String
  target : Nat
  deriving DecidableEq

/-- `ext in {"?", "*"}`. -/
def extOptStar (e : Option String) : Bool := e == some "?" || e == some "*"

/-- `ext in {"*", "+"}`. -/
def extStarPlus (e : Option String) : Bool := e == some "*" || e == some "+"

def isConcCell : Option Cell → Bool
  | some (.conc _) => true
  | _ => false

/-- Identity comparison with the distinguished zero-width match: `== em`. -/
def isZwCell : Option Cell → Bool
  | some Cell.zw => true
  | _ => false

/-- The inner loop body of `RegExRoute.match` for one token and one pattern:
given the cells `dp[si][pi]` (diag), `dp[si][pi+1]` (up) and `dp[si+1][pi]`
(left) and the current `matches[si]` value (slot), produce `dp[si+1][pi+1]`
and the new `matches[si]`.  All Python truthiness/identity tests on match
objects translate to `isSome` / `== some Cell.zw`. -/
def stepCell (p : RegExRoutePattern) (mo : Option MatchInfo)
    (diag up left slot : Option Cell) : Option Cell × Option Cell :=
  match mo with
  | some m =>
    if diag.isSome then (some (.conc m), some (.conc m))
    else if isZwCell up && extOptStar p.ext then (some (.conc m), some (.conc m))
    else if isConcCell up && extStarPlus p.ext then (some (.conc m), some (.conc m))
    else if isZwCell left && extOptStar p.ext then (some (.conc m), some (.conc m))
    else (none, slot)
  | none =>
    if left.isSome && extOptStar p.ext then
      (some Cell.zw, if isZwCell left then slot else left)
    else (none, slot)

/-- Compute row `si+1` of the DP table from row `si` (`prev`), walking the
patterns left to right; returns the cells `dp[si+1][1..np]` and the final
`matches[si]`. -/
def rowAux (t : String) : List RegExRoutePattern → List (Option Cell) →
    Option Cell → Option Cell → List (Option Cell) × Option Cell
  | [], _, _, slot => ([], slot)
  | p :: ps, prev, left, slot =>
    match prev with
    | [] => ([], slot)
    | d :: rest =>
      let st := stepCell p (p.pat t) d (rest.headD none) left slot
      let next := rowAux t ps rest st.1 st.2
      (st.1 :: next.1, next.2)

/-- Row 0 of the DP table beyond column 0: `dp[0][pi+1]` is `em` iff
`dp[0][pi]` is `em` and pattern `pi` is optional (`?`/`*`). -/
def row0Aux (prev : Option Cell) : List RegExRoutePattern → List (Option Cell)
  | [] => []
  | p :: ps =>
    let c := if isZwCell prev && extOptStar p.ext then some Cell.zw else none
    c :: row0Aux c ps

def dpRow0 (pats : List RegExRoutePattern) : List (Option Cell) :=
  some Cell.zw :: row0Aux (some Cell.zw) pats

/-- Run the DP over the token list, threading the current row; returns the
final row and the `matches` array (one slot per token, in token order). -/
def matchAux (pats : List RegExRoutePattern) :
    List (Option Cell) → List String → List (Option Cell) × List (Option Cell)
  | row, [] => (row, [])
  | row, t :: ts =>
    let r := rowAux t pats row none none
    let next := matchAux pats (none :: r.1) ts
    (next.1, r.2 :: next.2)

/-- A slot that fails the acceptance check: `m is None or m == em`. -/
def badSlot : Option Cell → Bool
  | none => true
  | some Cell.zw => true
  | some (.conc _) => false

/-- The acceptance test on the DP output `(final row, matches array)`:
`dp[N][P]` is reachable and no slot is `None` or `em`. -/
def acceptPr (pr : List (Option Cell) × List (Option Cell)) : Bool :=
  (pr.1.getLastD none).isSome && !(pr.2.any badSlot)

/-- The DP cell `dp[N][P]` (bottom-right corner). -/
def dpFinalCell (pats : List RegExRoutePattern) (toks : List String) : Option Cell :=
  ((matchAux pats (dpRow0 pats) toks).1).getLastD none

/-- `RegExRoute.match` on an already-tokenized sentence. -/
def RegExRoute.runMatch (r : RegExRoute) (toks : List String) : RegExRouteMatch :=
  let pr := matchAux r.patterns (dpRow0 r.patterns) toks
  ⟨acceptPr pr, pr.2, r.grammar, r.target⟩

/-- Result of `positional`: Python returns `None`, a single string, or the
tuple of group values. -/
inductive PosRes
  | null
  | str (s : String)
  | tup (l : List (Option String))
  deriving DecidableEq

def groupVals (m : MatchInfo) : List (Option String) := m.groups.map (fun g => g.gval)

/-- `m.group(1)`. -/
def group1 (m : MatchInfo) : Option String :=
  match m.groups with
  | g :: _ => g.gval
  | [] => none

/-- `m.group(2)`. -/
def group2 (m : MatchInfo) : Option String :=
  match m.groups with
  | _ :: g :: _ => g.gval
  | _ => none

/-- `m.groupdict()`: name-to-value pairs of the named groups. -/
def groupdict (m : MatchInfo) : List (String × Option String) :=
  m.groups.filterMap (fun g => g.gname.map (fun n => (n, g.gval)))

/-- `m.group(name)` for a name present in `m.groupdict()`. -/
def groupByName (m : MatchInfo) (name : String) : Option String :=
  match (groupdict m).find? (fun p => p.1 == name) with
  | some p => p.2
  | none => none

/-- `RegExRouteMatch.positional_x`: the raw slot, or an index error. -/
def positional_x (r : RegExRouteMatch) (i : Nat) : Except String (Option Cell) :=
  if i < r.matchList.length then .ok (r.matchList.getD i none)
  else .error "Out of boundary"

/-- `RegExRouteMatch.positional`.  `if not m` is only taken for `None`
(match objects, including `em`, are truthy); `em` has zero groups so it
falls into the tuple branch with the empty tuple. -/
def positional (r : RegExRouteMatch) (i : Nat) : Except String PosRes :=
  match positional_x r i with
  | .error e => .error e
  | .ok none => .ok .null
  | .ok (some Cell.zw) => .ok (.tup [])
  | .ok (some (.conc m)) =>
    if m.groups.length == 1 then
      match group1 m with
      | some s => .ok (.str s)
      | none => .ok .null
    else .ok (.tup (groupVals m))

/-- Value returned by `named`: a single value or the aggregated list. -/
inductive NamedVal
  | single (v : Option String)
  | many (vs : List (Option String))
  deriving DecidableEq

/-- The groups view of a slot as the `named` loop sees it: `None` slots are
skipped (`if not m: continue`); `em` is truthy but has no capture groups. -/
def cellGroups : Option Cell → Option MatchInfo
  | some (.conc m) => some m
  | some Cell.zw => some ⟨[]⟩
  | none => none

/-- One iteration of the `named` loop: append `m.group(name)` to the named
aggregate when `name` is a declared group, and `m.group(2)` to the dynamic
aggregate when the match is a two-group pair whose first group equals
`name`. -/
def namedStep (name : String) (acc : List (Option String) × List (Option String))
    (c : Option Cell) : List (Option String) × List (Option String) :=
  match cellGroups c with
  | none => acc
  | some m =>
    (if m.groups.length == 2 && group1 m == some name then acc.1 ++ [group2 m] else acc.1,
     if (groupdict m).any (fun p => p.1 == name) then acc.2 ++ [groupByName m name] else acc.2)

/-- `RegExRouteMatch.named`. -/
def named (r : RegExRouteMatch) (name : String) (flat null_error : Bool) :
    Except String NamedVal :=
  let a := r.matchList.foldl (namedStep name) ([], [])
  if !a.1.isEmpty then
    .ok (if a.1.length == 1 && flat then .single (a.1.getD 0 none) else .many a.1)
  else if a.2.isEmpty && null_error then
    .error ("Matching result not found for " ++ name)
  else .ok (if a.2.length == 1 && flat then .single (a.2.getD 0 none) else .many a.2)

/-- Spec-side (§4.3): the dynamic colon-pair value a slot contributes for
`name` — the value-slot string of a two-group match whose key slot captured
`name`. -/
def dynSlotVal (name : String) (c : Option Cell) : Option (Option String) :=
  match c with
  | some (.conc m) =>
    if m.groups.length == 2 && group1 m == some name then some (group2 m) else none
  | _ => none

/-- Spec-side (§4.3): the declared capture-name value a slot contributes for
`name`. -/
def declSlotVal (name : String) (c : Option Cell) : Option (Option String) :=
  match c with
  | some (.conc m) =>
    if (groupdict m).any (fun p => p.1 == name) then some (groupByName m name) else none
  | _ => none

/-- Spec-side (§4.3): a one-element aggregate with `flat` collapses to the
single value, otherwise the ordered list is returned. -/
def renderAgg (flat : Bool) (l : List (Option String)) : NamedVal :=
  if l.length == 1 && flat then .single (l.getD 0 none) else .many l

/-- Spec-side statement of `named` (§4.3): aggregate dynamic colon-pair
bindings and declared bindings in slot order; dynamic bindings take
precedence when non-empty; an empty aggregate fails with a not-found error
when `raiseIfMissing` is set. -/
def namedSpec (ms : List (Option Cell)) (name : String) (flat raiseIfMissing : Bool) :
    Except String NamedVal :=
  let dyn := ms.filterMap (dynSlotVal name)
  let decl := ms.filterMap (declSlotVal name)
  if !dyn.isEmpty then .ok (renderAgg flat dyn)
  else if decl.isEmpty && raiseIfMissing then
    .error ("Matching result not found for " ++ name)
  else .ok (renderAgg flat decl)

/-- Result of `RegExRouter.match`: `RegExParseError`, `RegExRouteError`, or
the surviving match. -/
inductive RouterResult
  | parseError (msg : String)
  | routerError (msg : String)
  | ok (m : RegExRouteMatch)
  deriving DecidableEq

/-- One iteration of the `RegExRouter.match` loop: keep a successful match
whose target was not already collected. -/
def routerStep (toks : List String) (acc : List RegExRouteMatch) (r : RegExRoute) :
    List RegExRouteMatch :=
  let m := r.runMatch toks
  if m.conclusion && !(acc.any (fun x => x.target == m.target)) then acc ++ [m] else acc

def matchedList (routes : List RegExRoute) (toks : List String) : List RegExRouteMatch :=
  routes.foldl (routerStep toks) []

/-- `RegExRouter.match`: no survivor raises `RegExParseError`, more than one
survivor raises `RegExRouteError`, otherwise the single survivor is
returned. -/
def routerMatch (routes : List RegExRoute) (toks : List String) : RouterResult :=
  match matchedList routes toks with
  | [] => .parseError "No route found"
  | [m] => .ok m
  | _ :: _ :: _ => .routerError "matches to multiple targets"

/-- The compiled literal pattern `a`. -/
def aTP : TokPat := .lit [.once (.rchar 'a')]

/-- The compiled literal pattern `b`. -/
def bTP : TokPat := .lit [.once (.rchar 'b')]

/-- The compiled literal pattern `c`. -/
def cTP : TokPat := .lit [.once (.rchar 'c')]

/-- A route holding the single literal pattern `a` with quantifier `e`. -/
def aRoute (e : Option String) : RegExRoute := ⟨0, "a", [⟨tokPatMatch aTP, e⟩]⟩

/-- The route `a* c* b` of the sideways-shift property. -/
def acbRoute : RegExRoute :=
  ⟨0, "a* c* b",
    [⟨tokPatMatch aTP, some "*"⟩, ⟨tokPatMatch cTP, some "*"⟩, ⟨tokPatMatch bTP, none⟩]⟩

/-- Models the raw regex `(a)?x` registered through `routex` with extension
`""`: on input token `x` it matches with its one capture group not
participating, so `m.group(1)` is `None`. -/
def optGroupPat : RegExRoutePattern :=
  ⟨fun t => if t == "x" then some ⟨[⟨none, none⟩]⟩ else none, some ""⟩

def optGroupRoute : RegExRoute := ⟨0, "", [optGroupPat]⟩

/-! ### General lemmas about the embedding -/

theorem str_empty_iff (t : String) : t = "" ↔ t.data = [] := by
  rw [String.ext_iff]

theorem charIEq_a (c : Char) : charIEq 'a' c = true ↔ (c = 'a' ∨ c = 'A') := by
  constructor
  · intro h
    simp only [charIEq, Bool.or_eq_true, Bool.and_eq_true, beq_iff_eq,
      decide_eq_true_eq] at h
    have h97 : ('a').toNat = 97 := rfl
    rcases h with (h | h) | h
    · exact Or.inl h.symm
    · omega
    · have h65 : c.toNat = 65 := by omega
      exact Or.inr (Char.eq_of_val_eq (UInt32.ext h65))
  · rintro (rfl | rfl) <;> decide

theorem runMatch_eq (r : RegExRoute) (toks : List String) :
    r.runMatch toks =
      ⟨acceptPr (matchAux r.patterns (dpRow0 r.patterns) toks),
        (matchAux r.patterns (dpRow0 r.patterns) toks).2, r.grammar, r.target⟩ := rfl

theorem runMatch_target (r : RegExRoute) (toks : List String) :
    (r.runMatch toks).target = r.target := rfl

theorem matchAux_slots_len (pats : List RegExRoutePattern) :
    ∀ (toks : List String) (row : List (Option Cell)),
      ((matchAux pats row toks).2).length = toks.length := by
  intro toks
  induction toks with
  | nil => intro row; rfl
  | cons t ts ih => intro row; simp [matchAux, ih]

theorem badSlot_false_iff (s : Option Cell) :
    badSlot s = false ↔ isConcCell s = true := by
  rcases s with _ | c
  · simp [badSlot, isConcCell]
  · cases c <;> simp [badSlot, isConcCell]

theorem any_badSlot_false_iff : ∀ (l : List (Option Cell)),
    l.any badSlot = false ↔ ∀ i, i < l.length → isConcCell (l.getD i none) = true := by
  intro l
  induction l with
  | nil => simp
  | cons a l ih =>
    rw [List.any_cons, Bool.or_eq_false_iff, badSlot_false_iff, ih]
    constructor
    · rintro ⟨h0, h⟩ i hi
      cases i with
      | zero => simpa using h0
      | succ i => simpa using h i (Nat.lt_of_succ_lt_succ hi)
    · intro h
      refine ⟨by simpa using h 0 (Nat.succ_pos _), fun i hi => ?_⟩
      simpa using h (i + 1) (Nat.succ_lt_succ hi)

/-! ### Claim 1: the acceptance condition of the sequence matcher -/

/-- Claim C1: `Route.match` succeeds iff DP cell `(N, P)` is reachable
(zero-width or concrete) and every one of the `N` per-token slots holds a
concrete, non-zero-width match; a token that was only skipped over makes
the match fail. -/
theorem claim1_acceptance (r : RegExRoute) (toks : List String) :
    (r.runMatch toks).conclusion = true ↔
      (dpFinalCell r.patterns toks).isSome = true ∧
        (r.runMatch toks).matchList.length = toks.length ∧
        ∀ i, i < toks.length →
          isConcCell ((r.runMatch toks).matchList.getD i none) = true := by
  rw [runMatch_eq]
  show acceptPr _ = true ↔ _
  rw [acceptPr, Bool.and_eq_true, Bool.not_eq_true', any_badSlot_false_iff]
  constructor
  · rintro ⟨h1, h2⟩
    refine ⟨h1, matchAux_slots_len _ _ _, fun i hi => h2 i ?_⟩
    rw [matchAux_slots_len]
    exact hi
  · rintro ⟨h1, -, h3⟩
    refine ⟨h1, fun i hi => h3 i ?_⟩
    rwa [matchAux_slots_len] at hi

/-- Witness for C1 at the route `a` and sentence `a`. -/
theorem claim1_acceptance_witness :
    (dpFinalCell (aRoute none).patterns ["a"]).isSome = true ∧
      ((aRoute none).runMatch ["a"]).matchList.length = ["a"].length ∧
      ∀ i, i < ["a"].length →
        isConcCell (((aRoute none).runMatch ["a"]).matchList.getD i none) = true :=
  (claim1_acceptance (aRoute none) ["a"]).mp (by decide)

/-! ### Claim 9: matching the empty sentence -/

theorem row0Aux_none (pats : List RegExRoutePattern) :
    row0Aux none pats = pats.map (fun _ => none) := by
  induction pats with
  | nil => rfl
  | cons p ps ih => simp [row0Aux, isZwCell, ih]

theorem getLastD_map_none (pats : List RegExRoutePattern) :
    (pats.map (fun _ => (none : Option Cell))).getLastD none = none := by
  induction pats with
  | nil => rfl
  | cons p ps ih => rw [List.map_cons, List.getLastD_cons, ih]

theorem row0Aux_last_general : ∀ (pats : List RegExRoutePattern) (prev : Option Cell),
    prev = some Cell.zw ∨ prev = none →
    (prev :: row0Aux prev pats).getLastD none =
      (if isZwCell prev && pats.all (fun p => extOptStar p.ext) then some Cell.zw
       else none) := by
  intro pats
  induction pats with
  | nil =>
    rintro prev (rfl | rfl) <;> simp [row0Aux, isZwCell]
  | cons p ps ih =>
    intro prev hprev
    have hunf : row0Aux prev (p :: ps) =
        (if isZwCell prev && extOptStar p.ext then some Cell.zw else none) ::
          row0Aux (if isZwCell prev && extOptStar p.ext then some Cell.zw else none) ps :=
      rfl
    have hcmem : (if isZwCell prev && extOptStar p.ext then some Cell.zw else none) =
        some Cell.zw ∨
        (if isZwCell prev && extOptStar p.ext then some Cell.zw else none) =
          (none : Option Cell) := by
      cases isZwCell prev && extOptStar p.ext <;> simp
    have ih2 := ih _ hcmem
    rw [List.getLastD_cons] at ih2
    rw [hunf, List.getLastD_cons, List.getLastD_cons, ih2]
    rcases hprev with rfl | rfl <;> cases he : extOptStar p.ext <;>
      simp [isZwCell, he, List.all_cons]

theorem dpRow0_getLast (pats : List RegExRoutePattern) :
    (dpRow0 pats).getLastD none =
      (if pats.all (fun p => extOptStar p.ext) then some Cell.zw else none) := by
  rw [dpRow0]
  rw [row0Aux_last_general pats (some Cell.zw) (Or.inl rfl)]
  simp [isZwCell]

/-- Claim C9: a route matches the empty token sequence iff every pattern
carries quantifier `?` or `*`. -/
theorem claim9_empty_sentence (r : RegExRoute) :
    (r.runMatch []).conclusion = true ↔
      r.patterns.all (fun p => extOptStar p.ext) = true := by
  rw [runMatch_eq]
  show acceptPr (matchAux r.patterns (dpRow0 r.patterns) []) = true ↔ _
  show acceptPr (dpRow0 r.patterns, []) = true ↔ _
  rw [acceptPr, dpRow0_getLast]
  cases h : r.patterns.all (fun p => extOptStar p.ext) <;> simp [h]

/-! ### Claim 3: the sideways-shift property of `a* c* b` -/

/-- Claim C3: the route `a* c* b` matches `a a b`, `a c b` and `c b`; the
later zero-or-more pattern absorbs a token that the earlier one declined. -/
theorem claim3_sideways :
    (acbRoute.runMatch ["a", "a", "b"]).conclusion = true ∧
      (acbRoute.runMatch ["a", "c", "b"]).conclusion = true ∧
      (acbRoute.runMatch ["c", "b"]).conclusion = true := by decide

/-! ### Claim 4: the literal form does not escape regex metacharacters -/

/-- Claim C4 fails on the code: the literal rule is interpolated into
`^({rule})$` without `re.escape`, so the all-literal token `+label`
(accepted by `META_PAT_LITERAL`, and listed as plain text in the code's own
comment) makes `re.compile` raise, and the literal token `a+` compiles to a
regex that accepts the token `aa`, which is not case-insensitively equal to
`a+`. -/
theorem claim4_literal_unescaped :
    formLit ("+label").data = true ∧
      compileTok "+label" = .error ("re.error: nothing to repeat: +label") ∧
      compileTok "a+" = .ok ⟨.lit [.more (.rchar 'a')], none⟩ ∧
      (tokPatMatch (.lit [.more (.rchar 'a')]) "aa").isSome = true ∧
      ciEq ("aa").data ("a+").data = false := by decide

/-! ### Claim 8: the named-argument matcher rejects the empty token -/

/-- Claim C8 as stated is false on the code: `<name>` compiles to
`^(?P<name>[^:]+)$` and `[^:]+` needs at least one character, so the empty
token is rejected although it does not contain `:`. -/
theorem claim8_counterexample :
    compileTok "<name>" = .ok ⟨.narg "name", none⟩ ∧
      (("").data.all (fun c => c != ':')) = true ∧
      tokPatMatch (.narg "name") "" = none := by decide

/-- Claim C8 amended: the compiled `<name>` matcher accepts exactly the
nonempty tokens that do not contain `:`, binding its single capture slot to
`name`. -/
theorem claim8_amended (t : String) :
    compileTok "<name>" = .ok ⟨.narg "name", none⟩ ∧
      ((tokPatMatch (.narg "name") t).isSome = true ↔
        t ≠ "" ∧ ∀ c ∈ t.data, c ≠ ':') ∧
      ((tokPatMatch (.narg "name") t).isSome = true →
        tokPatMatch (.narg "name") t = some ⟨[⟨some "name", some t⟩]⟩) := by
  have hunf : tokPatMatch (.narg "name") t =
      (if (!t.data.isEmpty && t.data.all (fun c => c != ':')) then
        some (⟨[⟨some "name", some t⟩]⟩ : MatchInfo) else none) := rfl
  refine ⟨by decide, ?_, ?_⟩
  · rw [hunf]
    cases hc : (!t.data.isEmpty && t.data.all (fun c => c != ':'))
    · constructor
      · intro hfalse
        simp at hfalse
      · rintro ⟨h1, h2⟩
        exfalso
        rw [Bool.and_eq_false_iff] at hc
        rcases hc with hc | hc
        · exact h1 ((str_empty_iff t).mpr (List.isEmpty_iff.mp (by simpa using hc)))
        · rw [List.all_eq_false] at hc
          obtain ⟨c, hmem, hch⟩ := hc
          exact absurd (h2 c hmem) (by simpa using hch)
    · rw [Bool.and_eq_true] at hc
      constructor
      · intro hx
        refine ⟨fun he => ?_, fun c hmem => ?_⟩
        · have h1 := hc.1
          rw [(str_empty_iff t).mp he] at h1
          simp at h1
        · have := List.all_eq_true.mp hc.2 c hmem
          simpa using this
      · intro hx
        simp
  · intro h
    rw [hunf] at h ⊢
    cases hc : (!t.data.isEmpty && t.data.all (fun c => c != ':')) <;> simp_all

/-- Witness for C8 (amended) at the token `ab`. -/
theorem claim8_amended_witness :
    tokPatMatch (.narg "name") "ab" = some ⟨[⟨some "name", some "ab"⟩]⟩ :=
  (claim8_amended "ab").2.2 (by decide)

/-! ### Claim 2: quantifier laws for a single literal pattern -/

theorem matchAux_single (p : RegExRoutePattern) (r0 r1 : Option Cell) (t : String)
    (ts : List String) :
    matchAux [p] [r0, r1] (t :: ts) =
      ((matchAux [p] [none, (stepCell p (p.pat t) r0 r1 none none).1] ts).1,
        (stepCell p (p.pat t) r0 r1 none none).2 ::
          (matchAux [p] [none, (stepCell p (p.pat t) r0 r1 none none).1] ts).2) := rfl

theorem acceptPr_cons_conc (fin slots : List (Option Cell)) (m : MatchInfo) :
    acceptPr (fin, some (Cell.conc m) :: slots) = acceptPr (fin, slots) := by
  simp [acceptPr, badSlot]

theorem acceptPr_cons_none (fin slots : List (Option Cell)) :
    acceptPr (fin, none :: slots) = false := by
  simp [acceptPr, badSlot]

theorem single_live_sp (p : RegExRoutePattern) (hsp : extStarPlus p.ext = true) :
    ∀ (ts : List String) (m : MatchInfo),
      acceptPr (matchAux [p] [none, some (Cell.conc m)] ts) =
        ts.all (fun t => (p.pat t).isSome) := by
  intro ts
  induction ts with
  | nil => intro m; rfl
  | cons t ts ih =>
    intro m
    rw [matchAux_single]
    cases hm : p.pat t with
    | some m2 =>
      have hstep : stepCell p (some m2) none (some (Cell.conc m)) none none =
          (some (Cell.conc m2), some (Cell.conc m2)) := by
        simp [stepCell, isZwCell, isConcCell, hsp]
      rw [hstep]
      rw [acceptPr_cons_conc, ih m2, List.all_cons, hm]
      simp
    | none =>
      have hstep : stepCell p none none (some (Cell.conc m)) none none =
          (none, none) := by
        simp [stepCell]
      rw [hstep, acceptPr_cons_none, List.all_cons, hm]
      simp

theorem single_live_q (p : RegExRoutePattern) (hsp : extStarPlus p.ext = false) :
    ∀ (ts : List String) (m : MatchInfo),
      acceptPr (matchAux [p] [none, some (Cell.conc m)] ts) = ts.isEmpty := by
  intro ts
  induction ts with
  | nil => intro m; rfl
  | cons t ts ih =>
    intro m
    rw [matchAux_single]
    cases hm : p.pat t with
    | some m2 =>
      have hstep : stepCell p (some m2) none (some (Cell.conc m)) none none =
          (none, none) := by
        simp [stepCell, isZwCell, isConcCell, hsp]
      rw [hstep, acceptPr_cons_none]
      simp
    | none =>
      have hstep : stepCell p none none (some (Cell.conc m)) none none =
          (none, none) := by
        simp [stepCell]
      rw [hstep, acceptPr_cons_none]
      simp

theorem single_start (p : RegExRoutePattern) (t : String) (ts : List String) (m : MatchInfo)
    (hm : p.pat t = some m) :
    acceptPr (matchAux [p] (dpRow0 [p]) (t :: ts)) =
      acceptPr (matchAux [p] [none, some (Cell.conc m)] ts) := by
  have hrow : dpRow0 [p] =
      [some Cell.zw,
        if isZwCell (some Cell.zw) && extOptStar p.ext then some Cell.zw else none] := rfl
  rw [hrow, matchAux_single, hm]
  have hstep : stepCell p (some m) (some Cell.zw)
      (if isZwCell (some Cell.zw) && extOptStar p.ext then some Cell.zw else none)
      none none = (some (Cell.conc m), some (Cell.conc m)) := by
    simp [stepCell]
  rw [hstep, acceptPr_cons_conc]

theorem single_start_fail (p : RegExRoutePattern) (t : String) (ts : List String)
    (hm : p.pat t = none) :
    acceptPr (matchAux [p] (dpRow0 [p]) (t :: ts)) = false := by
  have hrow : dpRow0 [p] =
      [some Cell.zw,
        if isZwCell (some Cell.zw) && extOptStar p.ext then some Cell.zw else none] := rfl
  rw [hrow, matchAux_single, hm]
  have hstep : stepCell p none (some Cell.zw)
      (if isZwCell (some Cell.zw) && extOptStar p.ext then some Cell.zw else none)
      none none = (none, none) := by
    simp [stepCell]
  rw [hstep, acceptPr_cons_none]

theorem aAccept_iff (t : String) :
    (tokPatMatch aTP t).isSome = true ↔ (t = "a" ∨ t = "A") := by
  have hA : t = "a" ↔ t.data = ['a'] := String.ext_iff
  have hB : t = "A" ↔ t.data = ['A'] := String.ext_iff
  rw [hA, hB]
  rcases t with ⟨l⟩
  show (tokPatMatch aTP (String.mk l)).isSome = true ↔ _
  rcases l with _ | ⟨c, _ | ⟨c2, cs⟩⟩
  · simp [tokPatMatch, aTP, piecesMatch, pmF]
  · have hunf : tokPatMatch aTP (String.mk [c]) =
        (if charIEq 'a' c && true then
          some (⟨[⟨none, some (String.mk [c])⟩]⟩ : MatchInfo) else none) := rfl
    rw [hunf]
    cases hci : charIEq 'a' c
    · constructor
      · intro h
        simp at h
      · rintro (h | h)
        · have hc : c = 'a' := by simpa using h
          rw [hc] at hci
          exact absurd hci (by decide)
        · have hc : c = 'A' := by simpa using h
          rw [hc] at hci
          exact absurd hci (by decide)
    · have hca := (charIEq_a c).mp hci
      constructor
      · intro hx
        rcases hca with rfl | rfl
        · left; rfl
        · right; rfl
      · intro hx
        simp
  · have hunf2 : tokPatMatch aTP (String.mk (c :: c2 :: cs)) =
        (if (atomMatch (RAtom.rchar 'a') c && false) = true then
          some (⟨[⟨none, some (String.mk (c :: c2 :: cs))⟩]⟩ : MatchInfo) else none) := rfl
    rw [hunf2]
    simp

theorem aRoute_law_none (toks : List String) :
    ((aRoute none).runMatch toks).conclusion = true ↔
      ∃ t, toks = [t] ∧ (t = "a" ∨ t = "A") := by
  show acceptPr (matchAux [⟨tokPatMatch aTP, none⟩]
      (dpRow0 [⟨tokPatMatch aTP, none⟩]) toks) = true ↔ _
  cases toks with
  | nil =>
    constructor
    · intro h
      exact absurd h (by decide)
    · rintro ⟨t, ht, -⟩
      exact absurd ht (by simp)
  | cons t ts =>
    cases hm : tokPatMatch aTP t with
    | some m =>
      rw [single_start ⟨tokPatMatch aTP, none⟩ t ts m hm,
        single_live_q ⟨tokPatMatch aTP, none⟩ (by decide) ts m]
      have ht := (aAccept_iff t).mp (by rw [hm]; rfl)
      constructor
      · intro h
        have hts : ts = [] := by simpa using h
        exact ⟨t, by rw [hts], ht⟩
      · rintro ⟨u, hu, -⟩
        obtain ⟨-, rfl⟩ := List.cons.inj hu
        rfl
    | none =>
      rw [single_start_fail ⟨tokPatMatch aTP, none⟩ t ts hm]
      constructor
      · intro h
        exact absurd h (by simp)
      · rintro ⟨u, hu, hor⟩
        obtain ⟨rfl, rfl⟩ := List.cons.inj hu
        have := (aAccept_iff t).mpr hor
        rw [hm] at this
        exact absurd this (by simp)

theorem aRoute_law_star (toks : List String) :
    ((aRoute (some "*")).runMatch toks).conclusion = true ↔
      ∀ t ∈ toks, t = "a" ∨ t = "A" := by
  show acceptPr (matchAux [⟨tokPatMatch aTP, some "*"⟩]
      (dpRow0 [⟨tokPatMatch aTP, some "*"⟩]) toks) = true ↔ _
  cases toks with
  | nil =>
    constructor
    · intro h u hu
      exact absurd hu (by simp)
    · intro h
      decide
  | cons t ts =>
    cases hm : tokPatMatch aTP t with
    | some m =>
      rw [single_start ⟨tokPatMatch aTP, some "*"⟩ t ts m hm,
        single_live_sp ⟨tokPatMatch aTP, some "*"⟩ (by decide) ts m,
        List.all_eq_true]
      have ht := (aAccept_iff t).mp (by rw [hm]; rfl)
      constructor
      · intro h u hu
        rcases List.mem_cons.mp hu with rfl | hu2
        · exact ht
        · exact (aAccept_iff u).mp (h u hu2)
      · intro h u hu
        exact (aAccept_iff u).mpr (h u (List.mem_cons_of_mem _ hu))
    | none =>
      rw [single_start_fail ⟨tokPatMatch aTP, some "*"⟩ t ts hm]
      constructor
      · intro h
        exact absurd h (by simp)
      · intro h
        have := (aAccept_iff t).mpr (h t (List.mem_cons_self t ts))
        rw [hm] at this
        exact absurd this (by simp)

theorem aRoute_law_opt (toks : List String) :
    ((aRoute (some "?")).runMatch toks).conclusion = true ↔
      toks = [] ∨ ∃ t, toks = [t] ∧ (t = "a" ∨ t = "A") := by
  show acceptPr (matchAux [⟨tokPatMatch aTP, some "?"⟩]
      (dpRow0 [⟨tokPatMatch aTP, some "?"⟩]) toks) = true ↔ _
  cases toks with
  | nil =>
    constructor
    · intro h
      exact Or.inl rfl
    · intro h
      decide
  | cons t ts =>
    cases hm : tokPatMatch aTP t with
    | some m =>
      rw [single_start ⟨tokPatMatch aTP, some "?"⟩ t ts m hm,
        single_live_q ⟨tokPatMatch aTP, some "?"⟩ (by decide) ts m]
      have ht := (aAccept_iff t).mp (by rw [hm]; rfl)
      constructor
      · intro h
        have hts : ts = [] := by simpa using h
        exact Or.inr ⟨t, by rw [hts], ht⟩
      · rintro (h | ⟨u, hu, -⟩)
        · exact absurd h (by simp)
        · obtain ⟨-, rfl⟩ := List.cons.inj hu
          rfl
    | none =>
      rw [single_start_fail ⟨tokPatMatch aTP, some "?"⟩ t ts hm]
      constructor
      · intro h
        exact absurd h (by simp)
      · rintro (h | ⟨u, hu, hor⟩)
        · exact absurd h (by simp)
        · obtain ⟨rfl, rfl⟩ := List.cons.inj hu
          have := (aAccept_iff t).mpr hor
          rw [hm] at this
          exact absurd this (by simp)

theorem aRoute_law_plus (toks : List String) :
    ((aRoute (some "+")).runMatch toks).conclusion = true ↔
      toks ≠ [] ∧ ∀ t ∈ toks, t = "a" ∨ t = "A" := by
  show acceptPr (matchAux [⟨tokPatMatch aTP, some "+"⟩]
      (dpRow0 [⟨tokPatMatch aTP, some "+"⟩]) toks) = true ↔ _
  cases toks with
  | nil =>
    constructor
    · intro h
      exact absurd h (by decide)
    · rintro ⟨h, -⟩
      exact absurd rfl h
  | cons t ts =>
    cases hm : tokPatMatch aTP t with
    | some m =>
      rw [single_start ⟨tokPatMatch aTP, some "+"⟩ t ts m hm,
        single_live_sp ⟨tokPatMatch aTP, some "+"⟩ (by decide) ts m,
        List.all_eq_true]
      have ht := (aAccept_iff t).mp (by rw [hm]; rfl)
      constructor
      · intro h
        refine ⟨by simp, fun u hu => ?_⟩
        rcases List.mem_cons.mp hu with rfl | hu2
        · exact ht
        · exact (aAccept_iff u).mp (h u hu2)
      · rintro ⟨-, h⟩ u hu
        exact (aAccept_iff u).mpr (h u (List.mem_cons_of_mem _ hu))
    | none =>
      rw [single_start_fail ⟨tokPatMatch aTP, some "+"⟩ t ts hm]
      constructor
      · intro h
        exact absurd h (by simp)
      · rintro ⟨-, h⟩
        have := (aAccept_iff t).mpr (h t (List.mem_cons_self t ts))
        rw [hm] at this
        exact absurd this (by simp)

/-- Claim C2 amended: the literal `a` compiles to a case-insensitive
matcher, so the quantifier laws hold with tokens compared case-insensitively
(`a` or `A`); a sentence containing any other token is rejected. -/
theorem claim2_amended :
    compileTok "a" = .ok ⟨aTP, none⟩ ∧
      (∀ toks, ((aRoute none).runMatch toks).conclusion = true ↔
        ∃ t, toks = [t] ∧ (t = "a" ∨ t = "A")) ∧
      (∀ toks, ((aRoute (some "*")).runMatch toks).conclusion = true ↔
        ∀ t ∈ toks, t = "a" ∨ t = "A") ∧
      (∀ toks, ((aRoute (some "?")).runMatch toks).conclusion = true ↔
        toks = [] ∨ ∃ t, toks = [t] ∧ (t = "a" ∨ t = "A")) ∧
      (∀ toks, ((aRoute (some "+")).runMatch toks).conclusion = true ↔
        toks ≠ [] ∧ ∀ t ∈ toks, t = "a" ∨ t = "A") :=
  ⟨by decide, aRoute_law_none, aRoute_law_star, aRoute_law_opt, aRoute_law_plus⟩

/-- Claim C2 as stated is false on the code: the literal matcher is compiled
with `re.I`, so the route `a` accepts the sentence `A` although its token
differs from `a`. -/
theorem claim2_counterexample :
    ((aRoute none).runMatch ["A"]).conclusion = true ∧ "A" ≠ "a" := by decide

/-- Witness for C2 (amended): the starred literal accepts `a A`. -/
theorem claim2_amended_witness :
    ((aRoute (some "*")).runMatch ["a", "A"]).conclusion = true :=
  (claim2_amended.2.2.1 ["a", "A"]).mpr (by decide)

/-! ### Claim 10: positional values on a successful match -/

theorem positional_conc (r : RegExRouteMatch) (i : Nat) (mi : MatchInfo)
    (hlt : i < r.matchList.length)
    (hs : r.matchList.getD i none = some (Cell.conc mi))
    (hpart : ∀ g ∈ mi.groups, g.gval ≠ none) :
    ∃ v, positional r i = .ok v ∧ v ≠ PosRes.null := by
  have hxi : positional_x r i = .ok (some (Cell.conc mi)) := by
    rw [positional_x, if_pos hlt, hs]
  rw [positional, hxi]
  cases hg : mi.groups with
  | nil =>
    refine ⟨.tup (groupVals mi), ?_, by simp⟩
    simp [hg]
  | cons g gs =>
    cases gs with
    | nil =>
      have hgv := hpart g (by rw [hg]; exact List.mem_cons_self g [])
      rcases hgval : g.gval with - | sval
      · exact absurd hgval hgv
      · refine ⟨.str sval, ?_, by simp⟩
        have h1 : group1 mi = some sval := by
          rw [group1, hg]
          exact hgval
        simp [hg, h1]
    | cons g2 gs2 =>
      refine ⟨.tup (groupVals mi), ?_, by simp⟩
      simp [hg]

/-- Claim C10 as stated is false on the code: a `routex` pattern whose
optional capture group does not participate (modelled after `(a)?x` on the
token `x`) yields a successful match whose `positional(0)` is `None`. -/
theorem claim10_counterexample :
    (optGroupRoute.runMatch ["x"]).conclusion = true ∧
      positional (optGroupRoute.runMatch ["x"]) 0 = .ok PosRes.null := by decide

/-- Claim C10 amended: on a successful match every token slot holds a
concrete (non-`None`, non-zero-width) match object, and `positional(i)` is
non-null for every `i < N` provided all capture groups of the slot's match
participated — which holds for every DSL-compiled matcher; a raw `routex`
regex with a non-participating group can still yield a null positional
value. -/
theorem claim10_amended (r : RegExRoute) (toks : List String) (i : Nat)
    (hc : (r.runMatch toks).conclusion = true) (hi : i < toks.length) :
    ∃ mi, (r.runMatch toks).matchList.getD i none = some (Cell.conc mi) ∧
      ((∀ g ∈ mi.groups, g.gval ≠ none) →
        ∃ v, positional (r.runMatch toks) i = .ok v ∧ v ≠ PosRes.null) := by
  have hlen : (r.runMatch toks).matchList.length = toks.length :=
    matchAux_slots_len _ _ _
  have hacc : acceptPr (matchAux r.patterns (dpRow0 r.patterns) toks) = true := hc
  rw [acceptPr, Bool.and_eq_true, Bool.not_eq_true', any_badSlot_false_iff] at hacc
  have hlt : i < (r.runMatch toks).matchList.length := by rw [hlen]; exact hi
  have hconc : isConcCell ((r.runMatch toks).matchList.getD i none) = true :=
    hacc.2 i hlt
  rcases hs : (r.runMatch toks).matchList.getD i none with - | cell
  · rw [hs] at hconc
    simp [isConcCell] at hconc
  · cases cell with
    | zw =>
      rw [hs] at hconc
      simp [isConcCell] at hconc
    | conc mi =>
      exact ⟨mi, rfl, fun hpart => positional_conc _ i mi hlt hs hpart⟩

/-- Witness for C10 (amended) at the route `a+` and sentence `a`. -/
theorem claim10_amended_witness :
    ∃ mi, ((aRoute (some "+")).runMatch ["a"]).matchList.getD 0 none =
        some (Cell.conc mi) ∧
      ((∀ g ∈ mi.groups, g.gval ≠ none) →
        ∃ v, positional ((aRoute (some "+")).runMatch ["a"]) 0 = .ok v ∧
          v ≠ PosRes.null) :=
  claim10_amended (aRoute (some "+")) ["a"] 0 (by decide) (by decide)

/-! ### Claim 5: the `named` accessor against its specification -/

theorem namedFold_eq (name : String) : ∀ (ms : List (Option Cell))
    (o n : List (Option String)),
    ms.foldl (namedStep name) (o, n) =
      (o ++ ms.filterMap (dynSlotVal name), n ++ ms.filterMap (declSlotVal name)) := by
  intro ms
  induction ms with
  | nil => simp
  | cons c ms ih =>
    intro o n
    rw [List.foldl_cons, List.filterMap_cons, List.filterMap_cons]
    rcases c with - | cell
    · rw [show namedStep name (o, n) none = (o, n) from rfl, ih]
      simp [dynSlotVal, declSlotVal]
    · cases cell with
      | zw =>
        rw [show namedStep name (o, n) (some Cell.zw) = (o, n) from rfl, ih]
        simp [dynSlotVal, declSlotVal]
      | conc m =>
        have hstep : namedStep name (o, n) (some (Cell.conc m)) =
            ((if m.groups.length == 2 && group1 m == some name then o ++ [group2 m]
              else o),
             (if (groupdict m).any (fun p => p.1 == name) then
                n ++ [groupByName m name] else n)) := rfl
        rw [hstep, ih]
        cases hd : (m.groups.length == 2 && group1 m == some name) <;>
          cases hn : (groupdict m).any (fun p => p.1 == name) <;>
            simp [dynSlotVal, declSlotVal, hd, hn]

/-- Claim C5: `named` aggregates dynamic colon-pair values and declared
capture values in token-slot order, dynamic bindings take precedence when
non-empty, a one-element aggregate with `flat` collapses to the single
string, and an empty aggregate raises a not-found error exactly when
`null_error` is set; this is the spec-side `namedSpec` verbatim. -/
theorem claim5_named_refines (r : RegExRouteMatch) (name : String) (flat ne : Bool) :
    named r name flat ne = namedSpec r.matchList name flat ne := by
  simp only [named, namedSpec, namedFold_eq name r.matchList [] [],
    List.nil_append, renderAgg]

/-! ### Claim 6: router dispatch outcomes -/

theorem routerStep_eq (toks : List String) (acc : List RegExRouteMatch)
    (r : RegExRoute) :
    routerStep toks acc r =
      (if ((r.runMatch toks).conclusion &&
            !(acc.any fun x => x.target == (r.runMatch toks).target)) then
        acc ++ [r.runMatch toks]
      else acc) := rfl

theorem routerFold_extend (toks : List String) : ∀ (routes : List RegExRoute)
    (acc : List RegExRouteMatch),
    ∃ tail, List.foldl (routerStep toks) acc routes = acc ++ tail := by
  intro routes
  induction routes with
  | nil => intro acc; exact ⟨[], by simp⟩
  | cons r rs ih =>
    intro acc
    cases hcond : ((r.runMatch toks).conclusion &&
        !(acc.any fun x => x.target == (r.runMatch toks).target))
    · have hstep : routerStep toks acc r = acc := by
        rw [routerStep_eq, hcond]
        simp
      obtain ⟨tail, htail⟩ := ih acc
      exact ⟨tail, by rw [List.foldl_cons, hstep, htail]⟩
    · have hstep : routerStep toks acc r = acc ++ [r.runMatch toks] := by
        rw [routerStep_eq, hcond]
        simp
      obtain ⟨tail, htail⟩ := ih (acc ++ [r.runMatch toks])
      exact ⟨[r.runMatch toks] ++ tail,
        by rw [List.foldl_cons, hstep, htail, List.append_assoc]⟩

theorem routerFold_spec (toks : List String) : ∀ (routes : List RegExRoute)
    (acc : List RegExRouteMatch),
    List.Pairwise (fun x y => x.target ≠ y.target) acc →
    List.Pairwise (fun x y => x.target ≠ y.target)
        (List.foldl (routerStep toks) acc routes) ∧
      (∀ tg, (∃ x ∈ List.foldl (routerStep toks) acc routes, x.target = tg) ↔
        ((∃ x ∈ acc, x.target = tg) ∨
          ∃ r ∈ routes, (r.runMatch toks).conclusion = true ∧ r.target = tg)) := by
  intro routes
  induction routes with
  | nil =>
    intro acc hacc
    refine ⟨hacc, fun tg => ?_⟩
    simp
  | cons r rs ih =>
    intro acc hacc
    rw [List.foldl_cons]
    cases hcond : ((r.runMatch toks).conclusion &&
        !(acc.any fun x => x.target == (r.runMatch toks).target))
    · have hstep : routerStep toks acc r = acc := by
        rw [routerStep_eq, hcond]
        simp
      rw [hstep]
      obtain ⟨hp, hm⟩ := ih acc hacc
      refine ⟨hp, fun tg => (hm tg).trans ?_⟩
      rw [Bool.and_eq_false_iff] at hcond
      rcases hcond with hcf | hnot
      · constructor
        · rintro (h | ⟨r2, hr2, hc2, ht2⟩)
          · exact Or.inl h
          · exact Or.inr ⟨r2, List.mem_cons_of_mem _ hr2, hc2, ht2⟩
        · rintro (h | ⟨r2, hr2, hc2, ht2⟩)
          · exact Or.inl h
          · rcases List.mem_cons.mp hr2 with rfl | hr2b
            · rw [hcf] at hc2
              exact absurd hc2 (by simp)
            · exact Or.inr ⟨r2, hr2b, hc2, ht2⟩
      · have hseen : ∃ x ∈ acc, x.target = r.target := by
          simpa [runMatch_target] using hnot
        constructor
        · rintro (h | ⟨r2, hr2, hc2, ht2⟩)
          · exact Or.inl h
          · exact Or.inr ⟨r2, List.mem_cons_of_mem _ hr2, hc2, ht2⟩
        · rintro (h | ⟨r2, hr2, hc2, ht2⟩)
          · exact Or.inl h
          · rcases List.mem_cons.mp hr2 with rfl | hr2b
            · obtain ⟨x, hx, hxt⟩ := hseen
              exact Or.inl ⟨x, hx, hxt.trans ht2⟩
            · exact Or.inr ⟨r2, hr2b, hc2, ht2⟩
    · have hstep : routerStep toks acc r = acc ++ [r.runMatch toks] := by
        rw [routerStep_eq, hcond]
        simp
      rw [hstep]
      rw [Bool.and_eq_true] at hcond
      have hnotseen : ∀ x ∈ acc, x.target ≠ r.target := by
        intro x hx
        have h2 : acc.any (fun x => x.target == (r.runMatch toks).target) = false := by
          simpa using hcond.2
        have h3 := List.any_eq_false.mp h2 x hx
        simpa [runMatch_target] using h3
      have haccpair : List.Pairwise (fun x y => x.target ≠ y.target)
          (acc ++ [r.runMatch toks]) := by
        rw [List.pairwise_append]
        refine ⟨hacc, by simp, fun x hx y hy => ?_⟩
        have hy2 : y = r.runMatch toks := by simpa using hy
        rw [hy2, runMatch_target]
        exact hnotseen x hx
      obtain ⟨hp, hm⟩ := ih (acc ++ [r.runMatch toks]) haccpair
      refine ⟨hp, fun tg => (hm tg).trans ?_⟩
      constructor
      · rintro (⟨x, hx, hxt⟩ | ⟨r2, hr2, hc2, ht2⟩)
        · rcases List.mem_append.mp hx with hxa | hxm
          · exact Or.inl ⟨x, hxa, hxt⟩
          · have hx2 : x = r.runMatch toks := by simpa using hxm
            refine Or.inr ⟨r, List.mem_cons_self r rs, hcond.1, ?_⟩
            rw [← hxt, hx2, runMatch_target]
        · exact Or.inr ⟨r2, List.mem_cons_of_mem _ hr2, hc2, ht2⟩
      · rintro (⟨x, hx, hxt⟩ | ⟨r2, hr2, hc2, ht2⟩)
        · exact Or.inl ⟨x, List.mem_append.mpr (Or.inl hx), hxt⟩
        · rcases List.mem_cons.mp hr2 with rfl | hr2b
          · exact Or.inl ⟨r2.runMatch toks, List.mem_append.mpr (Or.inr (by simp)),
              by rw [runMatch_target]; exact ht2⟩
          · exact Or.inr ⟨r2, hr2b, hc2, ht2⟩

theorem matchedList_head (toks : List String) : ∀ (routes : List RegExRoute)
    (r : RegExRoute),
    routes.find? (fun r => (r.runMatch toks).conclusion) = some r →
    ∃ tail, matchedList routes toks = r.runMatch toks :: tail := by
  intro routes
  induction routes with
  | nil =>
    intro r h
    simp at h
  | cons r0 rs ih =>
    intro r hf
    cases hc : (r0.runMatch toks).conclusion
    · rw [List.find?_cons_of_neg _ (by simp [hc])] at hf
      obtain ⟨tail, htail⟩ := ih r hf
      have hstep : routerStep toks [] r0 = [] := by
        rw [routerStep_eq, hc]
        simp
      refine ⟨tail, ?_⟩
      rw [matchedList, List.foldl_cons, hstep]
      exact htail
    · rw [List.find?_cons_of_pos _ (by simp [hc])] at hf
      have hr0 : r0 = r := Option.some.inj hf
      subst hr0
      have hstep : routerStep toks [] r0 = [r0.runMatch toks] := by
        rw [routerStep_eq, hc]
        simp
      obtain ⟨tail, htail⟩ := routerFold_extend toks rs [r0.runMatch toks]
      refine ⟨tail, ?_⟩
      rw [matchedList, List.foldl_cons, hstep]
      simpa using htail

theorem matchedList_nil_iff (routes : List RegExRoute) (toks : List String) :
    matchedList routes toks = [] ↔
      ∀ r ∈ routes, (r.runMatch toks).conclusion = false := by
  obtain ⟨-, hm⟩ := routerFold_spec toks routes [] List.Pairwise.nil
  constructor
  · intro h r hr
    cases hc : (r.runMatch toks).conclusion
    · rfl
    · exfalso
      obtain ⟨x, hx, -⟩ := (hm r.target).mpr (Or.inr ⟨r, hr, hc, rfl⟩)
      have hx2 : x ∈ matchedList routes toks := hx
      rw [h] at hx2
      simp at hx2
  · intro h
    cases hml : matchedList routes toks with
    | nil => rfl
    | cons x xs =>
      exfalso
      have hxm : x ∈ List.foldl (routerStep toks) [] routes := by
        show x ∈ matchedList routes toks
        rw [hml]
        simp
      rcases (hm x.target).mp ⟨x, hxm, rfl⟩ with ⟨y, hy, -⟩ | ⟨r2, hr2, hc2, -⟩
      · simp at hy
      · rw [h r2 hr2] at hc2
        exact absurd hc2 (by simp)

theorem matchedList_two_iff (routes : List RegExRoute) (toks : List String) :
    2 ≤ (matchedList routes toks).length ↔
      ∃ r1 ∈ routes, ∃ r2 ∈ routes, (r1.runMatch toks).conclusion = true ∧
        (r2.runMatch toks).conclusion = true ∧ r1.target ≠ r2.target := by
  obtain ⟨hp, hm⟩ := routerFold_spec toks routes [] List.Pairwise.nil
  constructor
  · intro hlen
    rcases hml : matchedList routes toks with - | ⟨x1, - | ⟨x2, rest⟩⟩
    · rw [hml] at hlen
      simp at hlen
    · rw [hml] at hlen
      simp at hlen
    · have hp2 : List.Pairwise (fun x y => x.target ≠ y.target)
          (x1 :: x2 :: rest) := by
        rw [← hml]
        exact hp
      have hne : x1.target ≠ x2.target :=
        (List.pairwise_cons.mp hp2).1 x2 (by simp)
      have hin1 : x1 ∈ List.foldl (routerStep toks) [] routes := by
        show x1 ∈ matchedList routes toks
        rw [hml]
        simp
      have hin2 : x2 ∈ List.foldl (routerStep toks) [] routes := by
        show x2 ∈ matchedList routes toks
        rw [hml]
        simp
      have h1 := (hm x1.target).mp ⟨x1, hin1, rfl⟩
      have h2 := (hm x2.target).mp ⟨x2, hin2, rfl⟩
      rcases h1 with ⟨y, hy, -⟩ | ⟨r1, hr1, hc1, ht1⟩
      · simp at hy
      rcases h2 with ⟨y, hy, -⟩ | ⟨r2, hr2, hc2, ht2⟩
      · simp at hy
      exact ⟨r1, hr1, r2, hr2, hc1, hc2, by rw [ht1, ht2]; exact hne⟩
  · rintro ⟨r1, hr1, r2, hr2, hc1, hc2, hne⟩
    obtain ⟨x1, hx1m, hx1t⟩ := (hm r1.target).mpr (Or.inr ⟨r1, hr1, hc1, rfl⟩)
    obtain ⟨x2, hx2m, hx2t⟩ := (hm r2.target).mpr (Or.inr ⟨r2, hr2, hc2, rfl⟩)
    have hh1 : x1 ∈ matchedList routes toks := hx1m
    have hh2 : x2 ∈ matchedList routes toks := hx2m
    rcases hml : matchedList routes toks with - | ⟨y, - | ⟨z, rest⟩⟩
    · rw [hml] at hh1
      simp at hh1
    · rw [hml] at hh1 hh2
      have e1 : x1 = y := by simpa using hh1
      have e2 : x2 = y := by simpa using hh2
      exact absurd (show r1.target = r2.target by
        rw [← hx1t, e1, ← e2, hx2t]) hne
    · rw [List.length_cons, List.length_cons]
      omega

/-- Claim C6: `Router.match` raises `RegExParseError` iff no registered
route matches, raises `RegExRouteError` iff the successful routes are bound
to more than one distinct target (duplicate targets being deduplicated,
keeping the first success per target), and otherwise returns the match of
the first successful route. -/
theorem claim6_router (routes : List RegExRoute) (toks : List String) :
    ((routerMatch routes toks = .parseError "No route found") ↔
      ∀ r ∈ routes, (r.runMatch toks).conclusion = false) ∧
    ((routerMatch routes toks = .routerError "matches to multiple targets") ↔
      ∃ r1 ∈ routes, ∃ r2 ∈ routes, (r1.runMatch toks).conclusion = true ∧
        (r2.runMatch toks).conclusion = true ∧ r1.target ≠ r2.target) ∧
    (∀ m, routerMatch routes toks = .ok m →
      ∃ r, routes.find? (fun r => (r.runMatch toks).conclusion) = some r ∧
        m = r.runMatch toks) := by
  have hun : routerMatch routes toks =
      (match matchedList routes toks with
        | [] => RouterResult.parseError "No route found"
        | [m] => RouterResult.ok m
        | _ :: _ :: _ => RouterResult.routerError "matches to multiple targets") := rfl
  refine ⟨?_, ?_, ?_⟩
  · rw [hun]
    rcases hml : matchedList routes toks with - | ⟨m0, - | ⟨m1, rest⟩⟩
    · constructor
      · rintro -
        exact (matchedList_nil_iff routes toks).mp hml
      · rintro -
        rfl
    · constructor
      · intro h
        exact absurd h (by simp)
      · intro h
        have := (matchedList_nil_iff routes toks).mpr h
        rw [hml] at this
        exact absurd this (by simp)
    · constructor
      · intro h
        exact absurd h (by simp)
      · intro h
        have := (matchedList_nil_iff routes toks).mpr h
        rw [hml] at this
        exact absurd this (by simp)
  · rw [hun]
    rcases hml : matchedList routes toks with - | ⟨m0, - | ⟨m1, rest⟩⟩
    · constructor
      · intro h
        exact absurd h (by simp)
      · intro h
        have := (matchedList_two_iff routes toks).mpr h
        rw [hml] at this
        simp at this
    · constructor
      · intro h
        exact absurd h (by simp)
      · intro h
        have := (matchedList_two_iff routes toks).mpr h
        rw [hml] at this
        simp at this
    · constructor
      · rintro -
        exact (matchedList_two_iff routes toks).mp
          (by rw [hml, List.length_cons, List.length_cons]; omega)
      · rintro -
        rfl
  · intro m hok
    have hok2 : (match matchedList routes toks with
        | [] => RouterResult.parseError "No route found"
        | [m] => RouterResult.ok m
        | _ :: _ :: _ =>
            RouterResult.routerError "matches to multiple targets") =
          RouterResult.ok m := by
      rw [← hun]
      exact hok
    rcases hml : matchedList routes toks with - | ⟨m0, - | ⟨m1, rest⟩⟩
    · rw [hml] at hok2
      simp at hok2
    · rw [hml] at hok2
      have hminj : m0 = m := by
        simpa using hok2
      have hnotall : ¬ ∀ r ∈ routes, (r.runMatch toks).conclusion = false := by
        intro hall
        have := (matchedList_nil_iff routes toks).mpr hall
        rw [hml] at this
        exact absurd this (by simp)
      rcases hfind : routes.find? (fun r => (r.runMatch toks).conclusion) with - | r
      · exfalso
        apply hnotall
        intro r hr
        have := List.find?_eq_none.mp hfind r hr
        simpa using this
      · obtain ⟨tail, htail⟩ := matchedList_head toks routes r hfind
        rw [hml] at htail
        obtain ⟨h1, -⟩ := List.cons.inj htail
        exact ⟨r, hfind, by rw [← hminj, h1]⟩
    · rw [hml] at hok2
      simp at hok2

/-- Witness for C6: a router with the single route `a` raises a parse error
on the sentence `b`. -/
theorem claim6_router_witness :
    routerMatch [aRoute none] ["b"] = .parseError "No route found" :=
  (claim6_router [aRoute none] ["b"]).1.mpr (by decide)

/-! ### Claim 7: compilation of colon pairs -/

theorem strmk_data (s : String) : String.mk s.data = s := rfl

theorem splitColon_ne_nil : ∀ (l : List Char), splitColon l ≠ [] := by
  intro l
  induction l with
  | nil => exact fun h => List.noConfusion h
  | cons c cs ih =>
    rw [splitColon]
    cases hc : (c == ':')
    · simp only [Bool.false_eq_true, if_false]
      rcases hsc : splitColon cs with - | ⟨p, ps⟩
      · exact fun h => List.noConfusion h
      · exact fun h => List.noConfusion h
    · simp only [if_true]
      exact fun h => List.noConfusion h

theorem splitColon_single : ∀ (l x : List Char),
    splitColon l = [x] → l = x ∧ ∀ c ∈ x, c ≠ ':' := by
  intro l
  induction l with
  | nil =>
    intro x h
    rw [splitColon] at h
    obtain ⟨h1, -⟩ := List.cons.inj h
    exact ⟨h1, by rw [← h1]; simp⟩
  | cons c cs ih =>
    intro x h
    rw [splitColon] at h
    cases hc : (c == ':')
    · rw [hc] at h
      simp only [Bool.false_eq_true, if_false] at h
      rcases hsc : splitColon cs with - | ⟨p, ps⟩
      · exact absurd hsc (splitColon_ne_nil cs)
      · rw [hsc] at h
        obtain ⟨h1, h2⟩ := List.cons.inj h
        have hps : ps = [] := h2
        rw [hps] at hsc
        obtain ⟨hcs, hfree⟩ := ih p hsc
        refine ⟨by rw [hcs, h1], ?_⟩
        rw [← h1]
        intro d hd
        rcases List.mem_cons.mp hd with rfl | hd2
        · simpa using hc
        · exact hfree d hd2
    · rw [hc] at h
      simp only [if_true] at h
      obtain ⟨-, h2⟩ := List.cons.inj h
      exact absurd h2 (splitColon_ne_nil cs)

theorem splitColon_pair : ∀ (l a b : List Char),
    splitColon l = [a, b] →
    l = a ++ ':' :: b ∧ (∀ c ∈ a, c ≠ ':') ∧ ∀ c ∈ b, c ≠ ':' := by
  intro l
  induction l with
  | nil =>
    intro a b h
    rw [splitColon] at h
    simp at h
  | cons c cs ih =>
    intro a b h
    rw [splitColon] at h
    cases hc : (c == ':')
    · rw [hc] at h
      simp only [Bool.false_eq_true, if_false] at h
      rcases hsc : splitColon cs with - | ⟨p, ps⟩
      · exact absurd hsc (splitColon_ne_nil cs)
      · rw [hsc] at h
        obtain ⟨h1, h2⟩ := List.cons.inj h
        rw [h2] at hsc
        obtain ⟨hcs, hfa, hfb⟩ := ih p b hsc
        refine ⟨?_, ?_, hfb⟩
        · rw [← h1, hcs]
          simp
        · rw [← h1]
          intro d hd
          rcases List.mem_cons.mp hd with rfl | hd2
          · simpa using hc
          · exact hfa d hd2
    · rw [hc] at h
      simp only [if_true] at h
      obtain ⟨h1, h2⟩ := List.cons.inj h
      obtain ⟨hcs, hfree⟩ := splitColon_single cs b h2
      have hcc : c = ':' := by simpa using hc
      refine ⟨?_, ?_, hfree⟩
      · rw [← h1, hcs, hcc]
        simp
      · rw [← h1]
        simp

theorem none_ne_some {α : Type} (a : α) : (none : Option α) = some a → False :=
  fun h => Option.noConfusion h

theorem parseOpt_some : ∀ (l inner : List Char) (e : String),
    parseOpt l = some (inner, e) →
    inner.length < l.length ∧ (e = "" ∨ e = "*" ∨ e = "+") := by
  intro l inner e h
  rcases l with - | ⟨c, rest⟩
  · exact absurd h (by simp [parseOpt])
  · rw [parseOpt] at h
    have hlen : (rest.takeWhile (fun d => d != ']')).length < (c :: rest).length := by
      rw [List.length_cons]
      exact Nat.lt_succ_of_le ((List.takeWhile_sublist _).length_le)
    repeat' split at h
    all_goals try exact absurd h (none_ne_some _)
    all_goals
      obtain ⟨h1, h2⟩ := Prod.mk.inj (Option.some.inj h)
    all_goals rw [← h1, ← h2]
    all_goals exact ⟨hlen, by simp⟩

theorem goF_congr : ∀ (k : Nat) (l : List Char), l.length ≤ k →
    ∀ (n1 n2 : Nat), l.length < n1 → l.length < n2 → goF n1 l = goF n2 l := by
  intro k
  induction k with
  | zero =>
    intro l hk n1 n2 h1 h2
    have hl : l = [] := List.length_eq_zero.mp (Nat.le_zero.mp hk)
    subst hl
    cases n1 with
    | zero => omega
    | succ m1 =>
      cases n2 with
      | zero => omega
      | succ m2 => rfl
  | succ k ih =>
    intro l hk n1 n2 h1 h2
    cases n1 with
    | zero => omega
    | succ m1 =>
      cases n2 with
      | zero => omega
      | succ m2 =>
        simp only [goF]
        split
        · split
          · rfl
          · rfl
        · split
          · rfl
          · split
            · rfl
            · split
              · rfl
              · split
                · next inner ext hpo =>
                  obtain ⟨hlen, -⟩ := parseOpt_some l inner ext hpo
                  rw [ih inner (by omega) m1 m2 (by omega) (by omega)]
                · split
                  · next a b hsp =>
                    obtain ⟨hl2, -, -⟩ := splitColon_pair l a b hsp
                    have hla : a.length < l.length := by
                      rw [hl2, List.length_append, List.length_cons]
                      omega
                    have hlb : b.length < l.length := by
                      rw [hl2, List.length_append, List.length_cons]
                      omega
                    rw [ih a (by omega) m1 m2 (by omega) (by omega),
                      ih b (by omega) m1 m2 (by omega) (by omega)]
                  · rfl

theorem numGroups_one : ∀ (n : Nat) (l : List Char) (cp : CompiledPattern),
    (∀ c ∈ l, c ≠ ':') → goF n l = .ok cp → extTruthy cp.ext = false →
    numGroups cp.pat = 1 := by
  intro n l cp hfree hok hext
  cases n with
  | zero => exact absurd hok (by simp [goF])
  | succ m =>
    rw [goF] at hok
    split at hok
    · split at hok
      · have hcp := Except.ok.inj hok
        rw [← hcp]
        rfl
      · exact absurd hok (fun hh => Except.noConfusion hh)
    · split at hok
      · have hcp := Except.ok.inj hok
        rw [← hcp]
        rfl
      · split at hok
        · have hcp := Except.ok.inj hok
          rw [← hcp]
          rfl
        · split at hok
          · have hcp := Except.ok.inj hok
            rw [← hcp]
            rfl
          · split at hok
            · next inner ext hpo =>
              split at hok
              · exact absurd hok (fun hh => Except.noConfusion hh)
              · split at hok
                · exact absurd hok (fun hh => Except.noConfusion hh)
                · have hcp := Except.ok.inj hok
                  rw [← hcp] at hext
                  obtain ⟨-, he⟩ := parseOpt_some l inner ext hpo
                  rcases he with rfl | rfl | rfl <;> simp [extTruthy] at hext
            · split at hok
              · next a b hsp =>
                obtain ⟨hl2, -, -⟩ := splitColon_pair l a b hsp
                exact absurd rfl (hfree ':' (by rw [hl2]; simp))
              · exact absurd hok (fun hh => Except.noConfusion hh)

theorem goF_pair_eq (l a b : List Char)
    (h1 : formLit l = false) (h2 : formAnon l = false) (h3 : formNargB l = false)
    (h4 : parseNfilter l = none) (h5 : parseOpt l = none)
    (hab : splitColon l = [a, b]) (n : Nat) :
    goF (n + 1) l =
      (match goF n a with
        | .error e => .error e
        | .ok lp =>
          match goF n b with
          | .error e => .error e
          | .ok rp =>
            if extTruthy lp.ext || extTruthy rp.ext then
              .error ("illegal routing syntax: " ++ String.mk l ++
                ": nested options are not allowed")
            else if (groupNames lp.pat).any
                (fun k => (groupNames rp.pat).contains k) then
              .error ("re.error: redefinition of group name: " ++ String.mk l)
            else .ok ⟨.pair lp.pat rp.pat, none⟩) := by
  rw [goF, h1, h2, h3, h4, h5, hab]
  rfl

theorem goF_not_pair_eq (l : List Char)
    (h1 : formLit l = false) (h2 : formAnon l = false) (h3 : formNargB l = false)
    (h4 : parseNfilter l = none) (h5 : parseOpt l = none) (n : Nat)
    (hno : ∀ a b, splitColon l ≠ [a, b]) :
    goF (n + 1) l = .error ("illegal routing syntax: " ++ String.mk l) := by
  rw [goF, h1, h2, h3, h4, h5]
  rcases hsp : splitColon l with - | ⟨a, - | ⟨b, - | ⟨c3, rest⟩⟩⟩
  · rfl
  · rfl
  · exact absurd hsp (hno a b)
  · rfl

/-- Claim C7 as stated is false on the code: at the grammar token
`<x>:<x>` no earlier form matches, the colon split yields exactly two
parts, and both sides compile without a quantifier, yet compilation does
not produce a pair matcher: the spliced pattern `^(?P<x>[^:]+):(?P<x>[^:]+)$`
redefines the group name `x`, so `re.compile` raises a `re.error` instead. -/
theorem claim7_counterexample :
    formLit ("<x>:<x>").data = false ∧ formAnon ("<x>:<x>").data = false ∧
      formNargB ("<x>:<x>").data = false ∧ parseNfilter ("<x>:<x>").data = none ∧
      parseOpt ("<x>:<x>").data = none ∧
      splitColon ("<x>:<x>").data = [("<x>").data, ("<x>").data] ∧
      compileTok "<x>" = .ok ⟨.narg "x", none⟩ ∧
      extTruthy (none : Option String) = false ∧
      compileTok "<x>:<x>" =
        .error ("re.error: redefinition of group name: <x>:<x>") := by decide

/-- Claim C7 amended: when a grammar token matches none of forms 1 to 5 it
is split on `:`; a split with other than two parts fails with a
`GrammarError` citing the token; a side that compiled with a quantifier
fails with the `nested options are not allowed` error; if both sides
compiled without a quantifier but declare the same capture-group name, the
recompilation of the spliced pattern fails with a duplicate-group-name
`re.error`; otherwise the result is the single colon-pair matcher built
from the left (key) and right (value) sides, with two ordered capture
slots. -/
theorem claim7_amended (rule : String)
    (h1 : formLit rule.data = false) (h2 : formAnon rule.data = false)
    (h3 : formNargB rule.data = false) (h4 : parseNfilter rule.data = none)
    (h5 : parseOpt rule.data = none) :
    (∀ parts, splitColon rule.data = parts → parts.length ≠ 2 →
      compileTok rule = .error ("illegal routing syntax: " ++ rule)) ∧
    (∀ a b cl cr, splitColon rule.data = [a, b] →
      compileTok (String.mk a) = .ok cl → compileTok (String.mk b) = .ok cr →
      (((extTruthy cl.ext || extTruthy cr.ext) = true →
        compileTok rule = .error ("illegal routing syntax: " ++ rule ++
          ": nested options are not allowed")) ∧
       ((extTruthy cl.ext || extTruthy cr.ext) = false →
        (((groupNames cl.pat).any (fun k => (groupNames cr.pat).contains k) = true →
          compileTok rule =
            .error ("re.error: redefinition of group name: " ++ rule)) ∧
         ((groupNames cl.pat).any (fun k => (groupNames cr.pat).contains k) = false →
          compileTok rule = .ok ⟨.pair cl.pat cr.pat, none⟩ ∧
            numGroups (.pair cl.pat cr.pat) = 2))))) := by
  have hct : compileTok rule = goF (rule.data.length + 1) rule.data := rfl
  constructor
  · intro parts hparts hlen2
    rw [hct]
    rw [goF_not_pair_eq rule.data h1 h2 h3 h4 h5 rule.data.length ?_]
    · intro a b hab
      rw [hab] at hparts
      rw [← hparts] at hlen2
      exact hlen2 rfl
  · intro a b cl cr hab hcl hcr
    obtain ⟨hl2, hfa, hfb⟩ := splitColon_pair rule.data a b hab
    have hla : a.length < rule.data.length := by
      rw [hl2, List.length_append, List.length_cons]
      omega
    have hlb : b.length < rule.data.length := by
      rw [hl2, List.length_append, List.length_cons]
      omega
    have hga : goF rule.data.length a = .ok cl :=
      (goF_congr a.length a le_rfl rule.data.length (a.length + 1) hla
        (by omega)).trans hcl
    have hgb : goF rule.data.length b = .ok cr :=
      (goF_congr b.length b le_rfl rule.data.length (b.length + 1) hlb
        (by omega)).trans hcr
    constructor
    · intro hext
      rw [hct, goF_pair_eq rule.data a b h1 h2 h3 h4 h5 hab rule.data.length]
      simp only [hga, hgb]
      rw [hext]
      rfl
    · intro hextf
      constructor
      · intro hdup
        rw [hct, goF_pair_eq rule.data a b h1 h2 h3 h4 h5 hab rule.data.length]
        simp only [hga, hgb]
        rw [hextf, hdup]
        rfl
      · intro hnodup
        refine ⟨?_, ?_⟩
        · rw [hct, goF_pair_eq rule.data a b h1 h2 h3 h4 h5 hab rule.data.length]
          simp only [hga, hgb]
          rw [hextf, hnodup]
          rfl
        · have hb2 := Bool.or_eq_false_iff.mp hextf
          have hn1 : numGroups cl.pat = 1 :=
            numGroups_one (a.length + 1) a cl hfa hcl hb2.1
          have hn2 : numGroups cr.pat = 1 :=
            numGroups_one (b.length + 1) b cr hfb hcr hb2.2
          show numGroups cl.pat + numGroups cr.pat = 2
          rw [hn1, hn2]

/-- Witness for C7 (amended) at the token `x:y`. -/
theorem claim7_amended_witness :
    compileTok "x:y" =
        .ok ⟨.pair (.lit [.once (.rchar 'x')]) (.lit [.once (.rchar 'y')]), none⟩ ∧
      numGroups (.pair (.lit [.once (.rchar 'x')]) (.lit [.once (.rchar 'y')])) = 2 :=
  (((claim7_amended "x:y" (by decide) (by decide) (by decide) (by decide)
      (by decide)).2 (String.data "x") (String.data "y")
    ⟨.lit [.once (.rchar 'x')], none⟩ ⟨.lit [.once (.rchar 'y')], none⟩
    (by decide) (by decide) (by decide)).2 (by decide)).2 (by decide)
